import Mathlib

/-!
Verification development for the dev-playbook SEO workflow engine.

The canonical engine lives in `utils/seo-workflow/workflow-utils.ts`
(src/unnamed/part_006): step model, `executeWorkflow`, `llm` with its retry
loop, `googleSearch`, `crawlUrl`.  An earlier replica of the same module is
embedded in the guide of src/unnamed/part_000 (its `googleSearch` converts
overall failures into degraded results, and its `llm` has no retry loop);
the batch runner `processBatch` is in src/unnamed/part_007.

Rows live in a Supabase table; the row-store helpers `getRow`, `updateRow`
and `updateRowStatus` are imported by the engine from `@/utils/seo-workflow/db`,
a file that is not part of the corpus, so they are modelled from the spec's
Row Store Adapter interface (fetch / updateFields / setStatus) as an
in-memory table whose writes always acknowledge.

Network collaborators (the Anthropic/OpenAI clients, the Google search API,
page fetches) and the `JSON.parse` builtin are modelled as oracle functions
supplied as parameters, mirroring how the TypeScript code treats them as
opaque asynchronous calls that either produce a value or throw.
-/

namespace DevPlaybook

/-- Model of a JavaScript runtime value as it can appear in a row field:
`undefined`, `null`, booleans, numbers (integral model), strings, arrays
and plain objects (ordered key/value lists, as JS objects preserve
insertion order). -/
inductive JsValue where
  | vundefined : JsValue
  | vnull : JsValue
  | vbool (b : Bool) : JsValue
  | vnum (n : Int) : JsValue
  | vstr (s : String) : JsValue
  | varr (elems : List JsValue) : JsValue
  | vobj (entries : List (String × JsValue)) : JsValue
deriving Repr

/-- `typeof v === 'object'`: true exactly for `null`, arrays and objects. -/
def jsTypeofObject : JsValue → Bool
  | .vnull => true
  | .varr _ => true
  | .vobj _ => true
  | _ => false

mutual

/-- Model of the JavaScript `String(v)` conversion. -/
def jsToString : JsValue → String
  | .vundefined => "undefined"
  | .vnull => "null"
  | .vbool b => cond b "true" "false"
  | .vnum n => toString n
  | .vstr s => s
  | .vobj _ => "[object Object]"
  | .varr xs => jsArrToString xs

/-- `Array.prototype.toString`: elements joined by commas, with `null` and
`undefined` elements rendered as the empty string. -/
def jsArrToString : List JsValue → String
  | [] => ""
  | [x] =>
    (match x with
     | .vundefined => ""
     | .vnull => ""
     | v => jsToString v)
  | x :: y :: xs =>
    (match x with
     | .vundefined => ""
     | .vnull => ""
     | v => jsToString v) ++ "," ++ jsArrToString (y :: xs)

end

/-- Escape of one character inside a JSON string literal. -/
def jsonEscapeChar (c : Char) : String :=
  if c = '"' then "\\\""
  else if c = '\\' then "\\\\"
  else if c = '\n' then "\\n"
  else if c = '\t' then "\\t"
  else if c = '\r' then "\\r"
  else String.singleton c

/-- Escape of a JSON string body. -/
def jsonEscape (s : String) : String :=
  String.join (s.toList.map jsonEscapeChar)

/-- Two spaces of indentation per nesting level, as produced by
`JSON.stringify(v, null, 2)`. -/
def jsonIndent (lvl : Nat) : String :=
  String.mk (List.replicate (2 * lvl) ' ')

mutual

/-- Model of the `JSON.stringify(v, null, 2)` builtin (an external platform
collaborator): pretty-printed JSON with two-space indentation.  Row values
fed to it are JSON data, so the builtin's special treatment of `undefined`
object members does not arise; `undefined` is rendered like an array hole
(`null`). -/
def jsonStringifyAux : Nat → JsValue → String
  | _, .vundefined => "null"
  | _, .vnull => "null"
  | _, .vbool b => cond b "true" "false"
  | _, .vnum n => toString n
  | _, .vstr s => "\"" ++ jsonEscape s ++ "\""
  | _, .varr [] => "[]"
  | lvl, .varr (x :: xs) =>
    "[\n" ++ jsonArrItems (lvl + 1) (x :: xs) ++ "\n" ++ jsonIndent lvl ++ "]"
  | _, .vobj [] => "\x7b\x7d"
  | lvl, .vobj (kv :: kvs) =>
    "\x7b\n" ++ jsonObjItems (lvl + 1) (kv :: kvs) ++ "\n" ++ jsonIndent lvl ++ "\x7d"

/-- Array items of the pretty printer, one per line. -/
def jsonArrItems : Nat → List JsValue → String
  | _, [] => ""
  | lvl, [x] => jsonIndent lvl ++ jsonStringifyAux lvl x
  | lvl, x :: y :: xs =>
    jsonIndent lvl ++ jsonStringifyAux lvl x ++ ",\n" ++ jsonArrItems lvl (y :: xs)

/-- Object entries of the pretty printer, one per line. -/
def jsonObjItems : Nat → List (String × JsValue) → String
  | _, [] => ""
  | lvl, [(k, v)] =>
    jsonIndent lvl ++ "\"" ++ jsonEscape k ++ "\": " ++ jsonStringifyAux lvl v
  | lvl, (k, v) :: kv :: kvs =>
    jsonIndent lvl ++ "\"" ++ jsonEscape k ++ "\": " ++ jsonStringifyAux lvl v
      ++ ",\n" ++ jsonObjItems lvl (kv :: kvs)

end

/-- `JSON.stringify(v, null, 2)` at top level. -/
def jsonStringifyPretty (v : JsValue) : String :=
  jsonStringifyAux 0 v

/-- The named fields of a row (and of the in-memory snapshot `data`):
an ordered key/value list, as a JS object. -/
abbrev Fields := List (String × JsValue)

/-- JS property read `data[k]`: the stored value, or `undefined` when the
key is absent. -/
def jsIndex : Fields → String → JsValue
  | [], _ => .vundefined
  | (k', v) :: rest, k => if k' = k then v else jsIndex rest k

/-- Whether the key is present at all (`k in data`). -/
def hasField : Fields → String → Bool
  | [], _ => false
  | (k', _) :: rest, k => if k' = k then true else hasField rest k

/-- JS property write `data[k] = v`: overwrite in place, or append. -/
def setField : Fields → String → JsValue → Fields
  | [], k, v => [(k, v)]
  | (k', v') :: rest, k, v =>
    if k' = k then (k', v) :: rest else (k', v') :: setField rest k v

/-- A thrown JavaScript `Error`: its message and the second line of its
stack trace (used by the engine for a best-effort source location). -/
structure JsError where
  message : String
  stack : Option String
deriving Repr, DecidableEq

/-- One row of a table: its named fields, its `status` column and its
`error_message` column. -/
structure Row where
  fields : Fields
  status : String
  error_message : Option String
deriving Repr

/-- The persistent store: rows keyed by `(table, id)`. -/
abbrev DB := List ((String × Nat) × Row)

/-- Modelled from the spec: the Row Store Adapter's `fetch(rowId)` (the
`getRow` helper of `@/utils/seo-workflow/db`, not in the corpus) — returns
the row or not-found. -/
def getRow : DB → String → Nat → Option Row
  | [], _, _ => none
  | (key, row) :: rest, t, id =>
    if key = (t, id) then some row else getRow rest t id

/-- Merge a set of field assignments into a field list, left to right. -/
def mergeFields (fs : Fields) (kvs : Fields) : Fields :=
  kvs.foldl (fun acc kv => setField acc kv.1 kv.2) fs

/-- Modelled from the spec: the Row Store Adapter's
`updateFields(rowId, fields)` (the `updateRow` helper of
`@/utils/seo-workflow/db`, not in the corpus) — a partial update that
merges the given columns into the row, leaving other columns alone, and
acknowledges. -/
def updateRow : DB → String → Nat → Fields → DB
  | [], _, _, _ => []
  | (key, row) :: rest, t, id, kvs =>
    if key = (t, id) then
      (key, { row with fields := mergeFields row.fields kvs }) :: rest
    else
      (key, row) :: updateRow rest t id kvs

/-- Modelled from the spec: the Row Store Adapter's
`setStatus(rowId, status, errorDetail?)` (the `updateRowStatus` helper of
`@/utils/seo-workflow/db`, not in the corpus) — sets the row's status and
error columns and acknowledges. -/
def updateRowStatus : DB → String → Nat → String → Option String → DB
  | [], _, _, _, _ => []
  | (key, row) :: rest, t, id, st, err =>
    if key = (t, id) then
      (key, { row with status := st, error_message := err }) :: rest
    else
      (key, row) :: updateRowStatus rest t id st err

/-- Serialization of one LLM input value performed by `executeWorkflow`'s
`executeStep`: objects are pretty-printed JSON, everything else goes
through `String(...)`. -/
def serializeForLlm (data : Fields) (field : String) : String :=
  let v := jsIndex data field
  if jsTypeofObject v then jsonStringifyPretty v else jsToString v

/-- One tagged prompt segment, from `llm`'s `makeRequest`:
the template literal wrapping a message in its field's tag. -/
def tagWrap (f m : String) : String :=
  "<" ++ f ++ ">" ++ m ++ "</" ++ f ++ ">"

/-- Model of JavaScript `Array.prototype.join('\n')`. -/
def joinNl : List String → String
  | [] => ""
  | [x] => x
  | x :: y :: xs => x ++ "\n" ++ joinNl (y :: xs)

/-- The indexed map `user_msgs.map((msg, i) => ...)` of `llm`'s
`makeRequest`: each user message wrapped in the tag of the field at the
same index (`undefined` when the tag list is shorter, as JS indexing past
the end yields `undefined`). -/
def promptSegs : List String → List String → List String
  | [], _ => []
  | m :: ms, fs => tagWrap (fs.headD "undefined") m :: promptSegs ms fs.tail

/-- The user prompt built inside `llm`'s `makeRequest`: the tagged
segments joined by newlines. -/
def makePrompt (user_msgs fields : List String) : String :=
  joinNl (promptSegs user_msgs fields)

/-- An executable (non-parallel) workflow step of workflow-utils
(src/unnamed/part_006): the tagged variant carrying its declared inputs,
its output field name, and its function.  The functions have exactly the
types the TypeScript interfaces give them (`typeof toSlug`, `typeof llm`,
…); fallible asynchronous functions are modelled as returning
`Except JsError JsValue`. -/
inductive ExecStep where
  | slug (inputField : String) (output : String) (func : String → String)
  | llmStep (system_msg : String) (user_msg : List String)
      (model : Option String) (json : Option Bool) (output : String)
      (func : String → List String → Option String → Option Bool →
        List String → Except JsError JsValue)
  | timestamp (output : String) (func : Unit → String)
  | googleSearchStep (inputField : String) (output : String)
      (func : JsValue → Except JsError JsValue)
  | concatFieldsStep (fields : List String) (output : String)
      (func : List JsValue → List String → Except JsError JsValue)

/-- The declared output field of an executable step. -/
def ExecStep.outField : ExecStep → String
  | .slug _ o _ => o
  | .llmStep _ _ _ _ o _ => o
  | .timestamp o _ => o
  | .googleSearchStep _ o _ => o
  | .concatFieldsStep _ o _ => o

/-- A workflow entry: an executable step, or a `parallel` group of
executable steps (the TypeScript `ParallelledExecutionStep`, whose nested
steps cannot themselves be parallel). -/
inductive WorkflowStep where
  | exec (s : ExecStep)
  | parallel (steps : List ExecStep)

/-- Input resolution and invocation of one executable step, from
`executeWorkflow`'s `executeStep` dispatch: slug/google-search steps read
one field from the snapshot, LLM steps serialize and tag each referenced
field, concatenate steps pass the raw values plus the field list.
Calling `toSlug` on a non-string resolved value raises a JS `TypeError`
(`toLowerCase` on a non-string), modelled as an error result. -/
def computeResult (data : Fields) : ExecStep → Except JsError JsValue
  | .slug f _ func =>
    match jsIndex data f with
    | .vstr s => .ok (.vstr (func s))
    | _ => .error ⟨"TypeError: input value has no toLowerCase", none⟩
  | .llmStep sys msgs model json _ func =>
    func sys (msgs.map (serializeForLlm data)) model json msgs
  | .timestamp _ func => .ok (.vstr (func ()))
  | .googleSearchStep f _ func => func (jsIndex data f)
  | .concatFieldsStep fs _ func => func (fs.map (jsIndex data)) fs

/-- Execution of one executable step against store and snapshot: on
success the output is persisted immediately (`updateRow`) and then merged
into the in-memory snapshot; on failure the step's error is reported and
nothing is written. -/
def runExecStep (t : String) (rowId : Nat) (s : ExecStep) (db : DB)
    (data : Fields) : DB × Fields × Option JsError :=
  match computeResult data s with
  | .error e => (db, data, some e)
  | .ok v =>
    (updateRow db t rowId [(s.outField, v)], setField data s.outField v, none)

/-- Execution of the steps of a `parallel` group.  `Promise.all` joins all
nested `executeStep` calls and rejects with the first failure; the model
fixes the admissible event-loop interleaving in which nested steps
complete in list order. -/
def runExecList (t : String) (rowId : Nat) :
    List ExecStep → DB → Fields → DB × Fields × Option JsError
  | [], db, data => (db, data, none)
  | s :: ss, db, data =>
    match runExecStep t rowId s db data with
    | (db', data', none) => runExecList t rowId ss db' data'
    | r => r

/-- Execution of one workflow entry. -/
def runStep (t : String) (rowId : Nat) (st : WorkflowStep) (db : DB)
    (data : Fields) : DB × Fields × Option JsError :=
  match st with
  | .exec s => runExecStep t rowId s db data
  | .parallel ss => runExecList t rowId ss db data

/-- The engine's sequential loop `for (const step of workflow) await
executeStep(step)`: steps run in list order and the first failure aborts
the rest. -/
def runSteps (t : String) (rowId : Nat) :
    List WorkflowStep → DB → Fields → DB × Fields × Option JsError
  | [], db, data => (db, data, none)
  | st :: rest, db, data =>
    match runStep t rowId st db data with
    | (db', data', none) => runSteps t rowId rest db' data'
    | r => r

/-- The error descriptor persisted on failure:
`` `${error.message} in ${error.stack?.split('\n')[1] || 'unknown location'}` ``. -/
def formatWorkflowError (e : JsError) : String :=
  e.message ++ " in " ++ (e.stack.getD "unknown location")

/-- A status write together with its status-write log entry, so that each
`updateRowStatus` call leaves exactly one trace entry. -/
def writeStatus (dbl : DB × List (String × Option String)) (t : String)
    (rowId : Nat) (st : String) (err : Option String) :
    DB × List (String × Option String) :=
  (updateRowStatus dbl.1 t rowId st err, dbl.2 ++ [(st, err)])

/-- The workflow execution engine of workflow-utils
(src/unnamed/part_006 `executeWorkflow`): fetch the row (failing with the
row-not-found error when absent), set status `running`, run the steps
sequentially against the in-memory snapshot, then either persist `success`
and return the final snapshot, or persist `failed` with the formatted
error descriptor and rethrow the step's error.  The returned triple is the
final store, the ordered log of status writes, and the caller-visible
outcome. -/
def executeWorkflow (t : String) (rowId : Nat) (workflow : List WorkflowStep)
    (db : DB) : DB × List (String × Option String) × Except JsError Fields :=
  match getRow db t rowId with
  | none => (db, [], .error ⟨"No data found for the specified row", none⟩)
  | some row =>
    let s1 := writeStatus (db, []) t rowId "running" none
    match runSteps t rowId workflow s1.1 row.fields with
    | (db2, data, none) =>
      let s2 := writeStatus (db2, s1.2) t rowId "success" none
      (s2.1, s2.2, .ok data)
    | (db2, _, some e) =>
      let s2 := writeStatus (db2, s1.2) t rowId "failed"
        (some (formatWorkflowError e))
      (s2.1, s2.2, .error e)

/-- All executable steps of a workflow, parallel groups flattened. -/
def execStepsOf (ws : List WorkflowStep) : List ExecStep :=
  (ws.map (fun st =>
    match st with
    | .exec s => [s]
    | .parallel ss => ss)).flatten

/-- Whether the row `(t, id)` exists and carries field `k`. -/
def rowHasField (db : DB) (t : String) (id : Nat) (k : String) : Bool :=
  match getRow db t id with
  | some r => hasField r.fields k
  | none => false

/-- The executable steps of one workflow entry. -/
def stepExecs : WorkflowStep → List ExecStep
  | .exec s => [s]
  | .parallel ss => ss

/-- One provider request assembled by `llm`'s `makeRequest`: system prompt,
the tagged concatenated user prompt, the model identifier, and whether
JSON mode is on (JSON mode also selects temperature 0 over 0.7 and, for
OpenAI models, the `json_object` response format — routing and temperature
are handled by the provider collaborator). -/
structure LlmRequest where
  system_msg : String
  prompt : String
  model : Option String
  jsonMode : Bool
deriving Repr, DecidableEq

/-- Outcome of one attempt of `llm`'s loop body: the provider call
(`makeRequest`, which either returns the response text or throws),
followed in JSON mode by `JSON.parse` on the raw text.  `mk` is the
provider oracle for a fixed request, indexed by the attempt number;
`parse` models the `JSON.parse` builtin. -/
def llmAttemptOver (mk : Nat → Except JsError String)
    (parse : String → Except JsError JsValue) (json : Bool) (a : Nat) :
    Except JsError JsValue :=
  match mk a with
  | .error e => .error e
  | .ok raw => if json then parse raw else .ok (.vstr raw)

/-- The retry loop of workflow-utils' `llm` (src/unnamed/part_006):
attempts are numbered from `a`, with `r` retries remaining after the
current one.  A call failure or (in JSON mode) a parse failure on a
non-final attempt sleeps `RETRY_DELAY` and retries; on the final attempt
the last error is thrown.  Returns the outcome, the number of provider
calls made, and the number of delays slept. -/
def llmAux (mk : Nat → Except JsError String)
    (parse : String → Except JsError JsValue) (json : Bool) :
    Nat → Nat → Except JsError JsValue × Nat × Nat
  | a, 0 =>
    (match mk a with
     | .error e => (.error e, 1, 0)
     | .ok raw =>
       if json then
         match parse raw with
         | .ok v => (.ok v, 1, 0)
         | .error e => (.error e, 1, 0)
       else (.ok (.vstr raw), 1, 0))
  | a, r + 1 =>
    (match mk a with
     | .error _ =>
       let tl := llmAux mk parse json (a + 1) r
       (tl.1, tl.2.1 + 1, tl.2.2 + 1)
     | .ok raw =>
       if json then
         match parse raw with
         | .ok v => (.ok v, 1, 0)
         | .error _ =>
           let tl := llmAux mk parse json (a + 1) r
           (tl.1, tl.2.1 + 1, tl.2.2 + 1)
       else (.ok (.vstr raw), 1, 0))

/-- `MAX_RETRIES = json ? 3 : 1`. -/
def llmMaxRetries (json : Bool) : Nat := if json then 3 else 1

/-- The request `llm` sends on every attempt. -/
def llmRequestOf (system_msg : String) (user_msgs : List String)
    (model : Option String) (json : Bool) (fields : List String) :
    LlmRequest :=
  ⟨system_msg, makePrompt user_msgs fields, model, json⟩

/-- Workflow-utils' `llm` (src/unnamed/part_006): builds the tagged
prompt, then runs the retry loop against the provider oracle, starting at
attempt 1 with `MAX_RETRIES - 1` retries remaining.  Returns the outcome
(raw text as a string value, or the parsed JSON value), the number of
provider calls, and the number of inter-attempt delays. -/
def llm (provider : Nat → LlmRequest → Except JsError String)
    (parse : String → Except JsError JsValue) (system_msg : String)
    (user_msgs : List String) (model : Option String) (json : Bool)
    (fields : List String) : Except JsError JsValue × Nat × Nat :=
  llmAux (fun a => provider a (llmRequestOf system_msg user_msgs model json fields))
    parse json 1 (llmMaxRetries json - 1)

/-- Whether an llm attempt outcome is a failure (a thrown provider error,
or in JSON mode a parse error). -/
def exceptFails (r : Except JsError JsValue) : Bool :=
  match r with
  | .ok _ => false
  | .error _ => true

/-- An error thrown inside a search function: its message, and whether it
is an axios abort (`error.code === 'ECONNABORTED'`, i.e. a timeout);
plain `new Error(...)` throws carry `econnaborted := false`. -/
structure AxiosErrorLike where
  message : String
  econnaborted : Bool
deriving Repr, DecidableEq

/-- One item of the Google Custom Search response. -/
structure GoogleSearchItem where
  title : String
  link : String
  snippet : String
deriving Repr, DecidableEq

/-- The body of the Google Custom Search response: optional item list and
optional error message. -/
structure GoogleResponseData where
  items : Option (List GoogleSearchItem)
  error : Option String
deriving Repr, DecidableEq

/-- One entry of `search_results`.  `content = none` models an object with
no `content` property, `content = some none` a `content` property holding
`null`, and `content = some (some s)` a crawled text. -/
structure SearchItem where
  title : String
  link : String
  content : Option (Option String)
deriving Repr, DecidableEq

/-- The value a search step resolves to: the result list plus an optional
`error` field. -/
structure SearchResultJs where
  search_results : List SearchItem
  error : Option String
deriving Repr, DecidableEq

/-- The `googleSearch` of the guide module in src/unnamed/part_000
(lines 495-571).  `api` is the outcome of the `axios.get` on the custom
search endpoint, called with the query and `Math.min(limit, 10)`;
`crawlRace` is the outcome of `Promise.race([crawlUrl(link), timeout])`
per link — an error is the race's reject, `ok c` is `crawlUrl`'s own
result (`crawlUrl` catches every failure and returns `null`, i.e. `none`).
Every overall failure is caught at the bottom and converted into an empty
result list plus an `error` message; a kept item's `content` is
`content || undefined`, and items without content are filtered out. -/
def googleSearch_p0 (apiKey searchEngineId : String)
    (api : String → Nat → Except AxiosErrorLike GoogleResponseData)
    (crawlRace : String → Except Unit (Option String))
    (query : String) (limit : Nat) : SearchResultJs :=
  if apiKey = "" then ⟨[], some "GOOGLE_SEARCH_KEY is required"⟩
  else if searchEngineId = "" then ⟨[], some "GOOGLE_SEARCH_ID is required"⟩
  else
    match api query (min limit 10) with
    | .error e =>
      if e.econnaborted then ⟨[], some "Search timeout"⟩
      else ⟨[], some e.message⟩
    | .ok resp =>
      match resp.error with
      | some m => ⟨[], some m⟩
      | none =>
        let results := ((resp.items.getD []).take limit).map (fun it =>
          match crawlRace it.link with
          | .error _ => ({ title := it.title, link := it.link, content := none } : SearchItem)
          | .ok c =>
            { title := it.title, link := it.link,
              content :=
                match c with
                | some s => if s = "" then none else some (some s)
                | none => none })
        ⟨results.filter (fun r => r.content.isSome), none⟩

/-- The `googleSearch` of workflow-utils in src/unnamed/part_006
(lines 349-371).  Nothing is caught at this level: missing credentials, a
failing `axios.get` and a provider error body all throw to the caller.
On success every item is kept, its `content` set to `crawlUrl`'s result
(`null`, i.e. `some none`, when the crawl failed — `crawlUrl` catches all
its own failures). -/
def googleSearch_p6 (apiKey searchEngineId : String)
    (api : String → Nat → Except AxiosErrorLike GoogleResponseData)
    (crawlUrl : String → Option String)
    (query : String) (limit : Nat) : Except AxiosErrorLike SearchResultJs :=
  if apiKey = "" ∨ searchEngineId = "" then
    .error ⟨"Missing Google Search credentials", false⟩
  else
    match api query (min limit 10) with
    | .error e => .error e
    | .ok resp =>
      match resp.error with
      | some m => .error ⟨m, false⟩
      | none =>
        .ok ⟨((resp.items.getD []).take limit).map (fun it =>
          { title := it.title, link := it.link,
            content := some (crawlUrl it.link) }), none⟩

/-- What the batch runner logs for one row: `none` on success, the error
message on a caught failure. -/
def batchOutcome (r : Except JsError JsValue) : Option String :=
  match r with
  | .ok _ => none
  | .error e => some e.message

/-- The loop body of `processBatch` (src/unnamed/part_007): one row id per
iteration; a throwing `executeWorkflow` is caught, logged with the row id
and error, and the loop continues with the next id.  `fuel` is the number
of ids left (`endId - rowId + 1`). -/
def processBatchAux (exec : Nat → Except JsError JsValue) :
    Nat → Nat → List (Nat × Option String)
  | _, 0 => []
  | rowId, fuel + 1 =>
    (rowId, batchOutcome (exec rowId)) :: processBatchAux exec (rowId + 1) fuel

/-- `processBatch(startId, endId, workflow)` of src/unnamed/part_007:
iterates ids from `startId` to `endId` inclusive, returning the ordered
per-row log. -/
def processBatch (exec : Nat → Except JsError JsValue)
    (startId endId : Nat) : List (Nat × Option String) :=
  processBatchAux exec startId (endId + 1 - startId)

/-! Helper lemmas about the snapshot and store primitives. -/

theorem jsIndex_setField_self (fs : Fields) (k : String) (v : JsValue) :
    jsIndex (setField fs k v) k = v := by
  induction fs with
  | nil => simp [setField, jsIndex]
  | cons kv rest ih =>
    obtain ⟨k', v'⟩ := kv
    by_cases h : k' = k
    · subst h
      simp [setField, jsIndex]
    · simp [setField, jsIndex, h, ih]

theorem jsIndex_setField_ne (fs : Fields) (k k' : String) (v : JsValue)
    (h : k' ≠ k) : jsIndex (setField fs k' v) k = jsIndex fs k := by
  induction fs with
  | nil => simp [setField, jsIndex, h]
  | cons kv rest ih =>
    obtain ⟨k0, v0⟩ := kv
    by_cases h0 : k0 = k'
    · subst h0
      simp [setField, jsIndex, h]
    · simp [setField, jsIndex, h0, ih]

theorem hasField_setField_self (fs : Fields) (k : String) (v : JsValue) :
    hasField (setField fs k v) k = true := by
  induction fs with
  | nil => simp [setField, hasField]
  | cons kv rest ih =>
    obtain ⟨k', v'⟩ := kv
    by_cases h : k' = k
    · subst h
      simp [setField, hasField]
    · simp [setField, hasField, h, ih]

theorem hasField_setField_mono (fs : Fields) (k k' : String) (v : JsValue)
    (h : hasField fs k = true) : hasField (setField fs k' v) k = true := by
  induction fs with
  | nil => simp [hasField] at h
  | cons kv rest ih =>
    obtain ⟨k0, v0⟩ := kv
    by_cases h0 : k0 = k'
    · subst h0
      by_cases hk : k0 = k
      · subst hk
        simp [setField, hasField]
      · simp [hasField, hk] at h
        simp [setField, hasField, hk, h]
    · by_cases hk : k0 = k
      · subst hk
        simp [setField, hasField, h0]
      · simp [hasField, hk] at h
        simp [setField, hasField, h0, hk, ih h]

theorem hasField_false_jsIndex (fs : Fields) (k : String)
    (h : hasField fs k = false) : jsIndex fs k = .vundefined := by
  induction fs with
  | nil => simp [jsIndex]
  | cons kv rest ih =>
    obtain ⟨k', v'⟩ := kv
    by_cases hk : k' = k
    · subst hk
      simp [hasField] at h
    · simp [hasField, hk] at h
      simp [jsIndex, hk, ih h]

theorem getRow_updateRow (db : DB) (t : String) (id : Nat) (kvs : Fields) :
    getRow (updateRow db t id kvs) t id
      = (getRow db t id).map
          (fun r => { r with fields := mergeFields r.fields kvs }) := by
  induction db with
  | nil => simp [getRow, updateRow]
  | cons entry rest ih =>
    obtain ⟨key, row⟩ := entry
    by_cases h : key = (t, id)
    · subst h
      simp [getRow, updateRow]
    · simp [getRow, updateRow, h, ih]

theorem getRow_updateRowStatus (db : DB) (t : String) (id : Nat)
    (st : String) (err : Option String) :
    getRow (updateRowStatus db t id st err) t id
      = (getRow db t id).map
          (fun r => { r with status := st, error_message := err }) := by
  induction db with
  | nil => simp [getRow, updateRowStatus]
  | cons entry rest ih =>
    obtain ⟨key, row⟩ := entry
    by_cases h : key = (t, id)
    · subst h
      simp [getRow, updateRowStatus]
    · simp [getRow, updateRowStatus, h, ih]

theorem rowHasField_updateRowStatus (db : DB) (t : String) (id : Nat)
    (st : String) (err : Option String) (k : String) :
    rowHasField (updateRowStatus db t id st err) t id k
      = rowHasField db t id k := by
  unfold rowHasField
  rw [getRow_updateRowStatus]
  cases getRow db t id <;> simp

theorem rowHasField_updateRow_self (db : DB) (t : String) (id : Nat)
    (k : String) (v : JsValue) (h : (getRow db t id).isSome = true) :
    rowHasField (updateRow db t id [(k, v)]) t id k = true := by
  unfold rowHasField
  rw [getRow_updateRow]
  cases hg : getRow db t id with
  | none => rw [hg] at h; simp at h
  | some r => simp [mergeFields, hasField_setField_self]

theorem rowHasField_updateRow_mono (db : DB) (t : String) (id : Nat)
    (k k' : String) (v : JsValue) (h : rowHasField db t id k = true) :
    rowHasField (updateRow db t id [(k', v)]) t id k = true := by
  unfold rowHasField at h ⊢
  rw [getRow_updateRow]
  cases hg : getRow db t id with
  | none => rw [hg] at h; simp at h
  | some r =>
    rw [hg] at h
    simp at h
    simp [mergeFields, hasField_setField_mono _ _ _ _ h]

theorem getRow_isSome_updateRow (db : DB) (t : String) (id : Nat)
    (kvs : Fields) (h : (getRow db t id).isSome = true) :
    (getRow (updateRow db t id kvs) t id).isSome = true := by
  rw [getRow_updateRow]
  cases hg : getRow db t id with
  | none => rw [hg] at h; simp at h
  | some r => simp

theorem getRow_isSome_updateRowStatus (db : DB) (t : String) (id : Nat)
    (st : String) (err : Option String) (h : (getRow db t id).isSome = true) :
    (getRow (updateRowStatus db t id st err) t id).isSome = true := by
  rw [getRow_updateRowStatus]
  cases hg : getRow db t id with
  | none => rw [hg] at h; simp at h
  | some r => simp

/-! Helper lemmas about the step interpreter. -/

theorem runExecStep_ok (t : String) (rowId : Nat) (s : ExecStep) (db : DB)
    (data : Fields) (v : JsValue) (h : computeResult data s = .ok v) :
    runExecStep t rowId s db data
      = (updateRow db t rowId [(s.outField, v)], setField data s.outField v, none) := by
  simp [runExecStep, h]

theorem runExecStep_error (t : String) (rowId : Nat) (s : ExecStep) (db : DB)
    (data : Fields) (e : JsError) (h : computeResult data s = .error e) :
    runExecStep t rowId s db data = (db, data, some e) := by
  simp [runExecStep, h]

theorem runExecList_preserves_hasField (t : String) (rowId : Nat)
    (ss : List ExecStep) (db : DB) (data : Fields) (db' : DB)
    (data' : Fields) (oe : Option JsError) (k : String)
    (h : runExecList t rowId ss db data = (db', data', oe))
    (hk : hasField data k = true) : hasField data' k = true := by
  induction ss generalizing db data with
  | nil =>
    simp [runExecList] at h
    obtain ⟨-, h2, -⟩ := h
    rw [← h2]; exact hk
  | cons s rest ih =>
    cases hc : computeResult data s with
    | error e =>
      simp [runExecList, runExecStep, hc] at h
      obtain ⟨-, h2, -⟩ := h
      rw [← h2]; exact hk
    | ok v =>
      simp [runExecList, runExecStep, hc] at h
      exact ih _ _ h (hasField_setField_mono _ _ _ _ hk)

theorem runExecList_preserves_rowHasField (t : String) (rowId : Nat)
    (ss : List ExecStep) (db : DB) (data : Fields) (db' : DB)
    (data' : Fields) (oe : Option JsError) (k : String)
    (h : runExecList t rowId ss db data = (db', data', oe))
    (hk : rowHasField db t rowId k = true) : rowHasField db' t rowId k = true := by
  induction ss generalizing db data with
  | nil =>
    simp [runExecList] at h
    obtain ⟨h1, -, -⟩ := h
    rw [← h1]; exact hk
  | cons s rest ih =>
    cases hc : computeResult data s with
    | error e =>
      simp [runExecList, runExecStep, hc] at h
      obtain ⟨h1, -, -⟩ := h
      rw [← h1]; exact hk
    | ok v =>
      simp [runExecList, runExecStep, hc] at h
      exact ih _ _ h (rowHasField_updateRow_mono _ _ _ _ _ _ hk)

theorem runExecList_preserves_isSome (t : String) (rowId : Nat)
    (ss : List ExecStep) (db : DB) (data : Fields) (db' : DB)
    (data' : Fields) (oe : Option JsError)
    (h : runExecList t rowId ss db data = (db', data', oe))
    (hk : (getRow db t rowId).isSome = true) :
    (getRow db' t rowId).isSome = true := by
  induction ss generalizing db data with
  | nil =>
    simp [runExecList] at h
    obtain ⟨h1, -, -⟩ := h
    rw [← h1]; exact hk
  | cons s rest ih =>
    cases hc : computeResult data s with
    | error e =>
      simp [runExecList, runExecStep, hc] at h
      obtain ⟨h1, -, -⟩ := h
      rw [← h1]; exact hk
    | ok v =>
      simp [runExecList, runExecStep, hc] at h
      exact ih _ _ h (getRow_isSome_updateRow _ _ _ _ hk)

theorem runExecList_preserves_jsIndex (t : String) (rowId : Nat)
    (ss : List ExecStep) (db : DB) (data : Fields) (db' : DB)
    (data' : Fields) (oe : Option JsError) (k : String)
    (h : runExecList t rowId ss db data = (db', data', oe))
    (hout : ∀ s ∈ ss, ExecStep.outField s ≠ k) :
    jsIndex data' k = jsIndex data k := by
  induction ss generalizing db data with
  | nil =>
    simp [runExecList] at h
    obtain ⟨-, h2, -⟩ := h
    rw [← h2]
  | cons s rest ih =>
    cases hc : computeResult data s with
    | error e =>
      simp [runExecList, runExecStep, hc] at h
      obtain ⟨-, h2, -⟩ := h
      rw [← h2]
    | ok v =>
      simp [runExecList, runExecStep, hc] at h
      rw [ih _ _ h (fun s' hs' => hout s' (List.mem_cons_of_mem _ hs'))]
      exact jsIndex_setField_ne _ _ _ _ (hout s (List.mem_cons_self _ _))

theorem runExecList_success_hasField (t : String) (rowId : Nat)
    (ss : List ExecStep) (db : DB) (data : Fields) (db' : DB) (data' : Fields)
    (h : runExecList t rowId ss db data = (db', data', none)) :
    ∀ s ∈ ss, hasField data' (ExecStep.outField s) = true := by
  induction ss generalizing db data with
  | nil => intro s hs; simp at hs
  | cons s rest ih =>
    intro s' hs'
    cases hc : computeResult data s with
    | error e =>
      simp [runExecList, runExecStep, hc] at h
    | ok v =>
      simp [runExecList, runExecStep, hc] at h
      rcases List.mem_cons.mp hs' with heq | hmem
      · subst heq
        exact runExecList_preserves_hasField _ _ _ _ _ _ _ _ _ h
          (hasField_setField_self _ _ _)
      · exact ih _ _ h s' hmem

theorem runExecList_success_rowHasField (t : String) (rowId : Nat)
    (ss : List ExecStep) (db : DB) (data : Fields) (db' : DB) (data' : Fields)
    (h : runExecList t rowId ss db data = (db', data', none))
    (hsome : (getRow db t rowId).isSome = true) :
    ∀ s ∈ ss, rowHasField db' t rowId (ExecStep.outField s) = true := by
  induction ss generalizing db data with
  | nil => intro s hs; simp at hs
  | cons s rest ih =>
    intro s' hs'
    cases hc : computeResult data s with
    | error e =>
      simp [runExecList, runExecStep, hc] at h
    | ok v =>
      simp [runExecList, runExecStep, hc] at h
      rcases List.mem_cons.mp hs' with heq | hmem
      · subst heq
        exact runExecList_preserves_rowHasField _ _ _ _ _ _ _ _ _ h
          (rowHasField_updateRow_self _ _ _ _ _ hsome)
      · exact ih _ _ h (getRow_isSome_updateRow _ _ _ _ hsome) s' hmem

theorem runStep_eq_runExecList (t : String) (rowId : Nat)
    (st : WorkflowStep) (db : DB) (data : Fields) :
    runStep t rowId st db data = runExecList t rowId (stepExecs st) db data := by
  cases st with
  | parallel ss => rfl
  | exec s =>
    show runExecStep t rowId s db data = runExecList t rowId [s] db data
    rcases h : runExecStep t rowId s db data with ⟨db', data', oe⟩
    cases oe <;> simp [runExecList, h]

theorem execStepsOf_cons (st : WorkflowStep) (rest : List WorkflowStep) :
    execStepsOf (st :: rest) = stepExecs st ++ execStepsOf rest := by
  cases st <;> simp [execStepsOf, stepExecs]

theorem execStepsOf_append (ws1 ws2 : List WorkflowStep) :
    execStepsOf (ws1 ++ ws2) = execStepsOf ws1 ++ execStepsOf ws2 := by
  simp [execStepsOf]

theorem runSteps_preserves_rowHasField (t : String) (rowId : Nat)
    (ws : List WorkflowStep) (db : DB) (data : Fields) (db' : DB)
    (data' : Fields) (oe : Option JsError) (k : String)
    (h : runSteps t rowId ws db data = (db', data', oe))
    (hk : rowHasField db t rowId k = true) : rowHasField db' t rowId k = true := by
  induction ws generalizing db data with
  | nil =>
    simp [runSteps] at h
    obtain ⟨h1, -, -⟩ := h
    rw [← h1]; exact hk
  | cons st rest ih =>
    rw [show runSteps t rowId (st :: rest) db data
        = (match runStep t rowId st db data with
           | (db1, data1, none) => runSteps t rowId rest db1 data1
           | r => r) from rfl, runStep_eq_runExecList] at h
    rcases he : runExecList t rowId (stepExecs st) db data with ⟨db1, data1, oe1⟩
    rw [he] at h
    cases oe1 with
    | none =>
      simp at h
      exact ih _ _ h
        (runExecList_preserves_rowHasField _ _ _ _ _ _ _ _ _ he hk)
    | some e =>
      simp at h
      obtain ⟨h1, -, -⟩ := h
      rw [← h1]
      exact runExecList_preserves_rowHasField _ _ _ _ _ _ _ _ _ he hk

theorem runSteps_preserves_isSome (t : String) (rowId : Nat)
    (ws : List WorkflowStep) (db : DB) (data : Fields) (db' : DB)
    (data' : Fields) (oe : Option JsError)
    (h : runSteps t rowId ws db data = (db', data', oe))
    (hk : (getRow db t rowId).isSome = true) :
    (getRow db' t rowId).isSome = true := by
  induction ws generalizing db data with
  | nil =>
    simp [runSteps] at h
    obtain ⟨h1, -, -⟩ := h
    rw [← h1]; exact hk
  | cons st rest ih =>
    rw [show runSteps t rowId (st :: rest) db data
        = (match runStep t rowId st db data with
           | (db1, data1, none) => runSteps t rowId rest db1 data1
           | r => r) from rfl, runStep_eq_runExecList] at h
    rcases he : runExecList t rowId (stepExecs st) db data with ⟨db1, data1, oe1⟩
    rw [he] at h
    cases oe1 with
    | none =>
      simp at h
      exact ih _ _ h (runExecList_preserves_isSome _ _ _ _ _ _ _ _ he hk)
    | some e =>
      simp at h
      obtain ⟨h1, -, -⟩ := h
      rw [← h1]
      exact runExecList_preserves_isSome _ _ _ _ _ _ _ _ he hk

theorem runSteps_preserves_jsIndex (t : String) (rowId : Nat)
    (ws : List WorkflowStep) (db : DB) (data : Fields) (db' : DB)
    (data' : Fields) (oe : Option JsError) (k : String)
    (h : runSteps t rowId ws db data = (db', data', oe))
    (hout : ∀ s ∈ execStepsOf ws, ExecStep.outField s ≠ k) :
    jsIndex data' k = jsIndex data k := by
  induction ws generalizing db data with
  | nil =>
    simp [runSteps] at h
    obtain ⟨-, h2, -⟩ := h
    rw [← h2]
  | cons st rest ih =>
    have houtHead : ∀ s ∈ stepExecs st, ExecStep.outField s ≠ k := by
      intro s hs
      exact hout s (by rw [execStepsOf_cons]; exact List.mem_append_left _ hs)
    have houtRest : ∀ s ∈ execStepsOf rest, ExecStep.outField s ≠ k := by
      intro s hs
      exact hout s (by rw [execStepsOf_cons]; exact List.mem_append_right _ hs)
    rw [show runSteps t rowId (st :: rest) db data
        = (match runStep t rowId st db data with
           | (db1, data1, none) => runSteps t rowId rest db1 data1
           | r => r) from rfl, runStep_eq_runExecList] at h
    rcases he : runExecList t rowId (stepExecs st) db data with ⟨db1, data1, oe1⟩
    rw [he] at h
    cases oe1 with
    | none =>
      simp at h
      rw [ih _ _ h houtRest]
      exact runExecList_preserves_jsIndex _ _ _ _ _ _ _ _ _ he houtHead
    | some e =>
      simp at h
      obtain ⟨-, h2, -⟩ := h
      rw [← h2]
      exact runExecList_preserves_jsIndex _ _ _ _ _ _ _ _ _ he houtHead

theorem runSteps_preserves_hasField (t : String) (rowId : Nat)
    (ws : List WorkflowStep) (db : DB) (data : Fields) (db' : DB)
    (data' : Fields) (oe : Option JsError) (k : String)
    (h : runSteps t rowId ws db data = (db', data', oe))
    (hk : hasField data k = true) : hasField data' k = true := by
  induction ws generalizing db data with
  | nil =>
    simp [runSteps] at h
    obtain ⟨-, h2, -⟩ := h
    rw [← h2]; exact hk
  | cons st rest ih =>
    rw [show runSteps t rowId (st :: rest) db data
        = (match runStep t rowId st db data with
           | (db1, data1, none) => runSteps t rowId rest db1 data1
           | r => r) from rfl, runStep_eq_runExecList] at h
    rcases he : runExecList t rowId (stepExecs st) db data with ⟨db1, data1, oe1⟩
    rw [he] at h
    cases oe1 with
    | none =>
      simp at h
      exact ih _ _ h (runExecList_preserves_hasField _ _ _ _ _ _ _ _ _ he hk)
    | some e =>
      simp at h
      obtain ⟨-, h2, -⟩ := h
      rw [← h2]
      exact runExecList_preserves_hasField _ _ _ _ _ _ _ _ _ he hk

theorem runSteps_success_hasField (t : String) (rowId : Nat)
    (ws : List WorkflowStep) (db : DB) (data : Fields) (db' : DB) (data' : Fields)
    (h : runSteps t rowId ws db data = (db', data', none)) :
    ∀ s ∈ execStepsOf ws, hasField data' (ExecStep.outField s) = true := by
  induction ws generalizing db data with
  | nil => intro s hs; simp [execStepsOf] at hs
  | cons st rest ih =>
    intro s hs
    rw [show runSteps t rowId (st :: rest) db data
        = (match runStep t rowId st db data with
           | (db1, data1, none) => runSteps t rowId rest db1 data1
           | r => r) from rfl, runStep_eq_runExecList] at h
    rcases he : runExecList t rowId (stepExecs st) db data with ⟨db1, data1, oe1⟩
    rw [he] at h
    cases oe1 with
    | none =>
      simp at h
      rw [execStepsOf_cons] at hs
      rcases List.mem_append.mp hs with hmem | hmem
      · exact runSteps_preserves_hasField _ _ _ _ _ _ _ _ _ h
          (runExecList_success_hasField _ _ _ _ _ _ _ he s hmem)
      · exact ih _ _ h s hmem
    | some e => simp at h

theorem runSteps_success_rowHasField (t : String) (rowId : Nat)
    (ws : List WorkflowStep) (db : DB) (data : Fields) (db' : DB) (data' : Fields)
    (h : runSteps t rowId ws db data = (db', data', none))
    (hsome : (getRow db t rowId).isSome = true) :
    ∀ s ∈ execStepsOf ws, rowHasField db' t rowId (ExecStep.outField s) = true := by
  induction ws generalizing db data with
  | nil => intro s hs; simp [execStepsOf] at hs
  | cons st rest ih =>
    intro s hs
    rw [show runSteps t rowId (st :: rest) db data
        = (match runStep t rowId st db data with
           | (db1, data1, none) => runSteps t rowId rest db1 data1
           | r => r) from rfl, runStep_eq_runExecList] at h
    rcases he : runExecList t rowId (stepExecs st) db data with ⟨db1, data1, oe1⟩
    rw [he] at h
    cases oe1 with
    | none =>
      simp at h
      rw [execStepsOf_cons] at hs
      rcases List.mem_append.mp hs with hmem | hmem
      · exact runSteps_preserves_rowHasField _ _ _ _ _ _ _ _ _ h
          (runExecList_success_rowHasField _ _ _ _ _ _ _ he hsome s hmem)
      · exact ih _ _ h (runExecList_preserves_isSome _ _ _ _ _ _ _ _ he hsome) s hmem
    | some e => simp at h

theorem runSteps_append_ok (t : String) (rowId : Nat)
    (ws1 ws2 : List WorkflowStep) (db : DB) (data : Fields) (db1 : DB)
    (data1 : Fields)
    (h : runSteps t rowId ws1 db data = (db1, data1, none)) :
    runSteps t rowId (ws1 ++ ws2) db data = runSteps t rowId ws2 db1 data1 := by
  induction ws1 generalizing db data with
  | nil =>
    have h1 : db = db1 := congrArg (fun p => p.1) h
    have h2 : data = data1 := congrArg (fun p => p.2.1) h
    rw [List.nil_append, ← h1, ← h2]
  | cons st rest ih =>
    rw [show runSteps t rowId (st :: rest) db data
        = (match runStep t rowId st db data with
           | (dbm, datam, none) => runSteps t rowId rest dbm datam
           | r => r) from rfl] at h
    rw [List.cons_append,
      show runSteps t rowId (st :: (rest ++ ws2)) db data
        = (match runStep t rowId st db data with
           | (dbm, datam, none) => runSteps t rowId (rest ++ ws2) dbm datam
           | r => r) from rfl]
    rcases he : runStep t rowId st db data with ⟨dbm, datam, oem⟩
    rw [he] at h
    cases oem with
    | none =>
      simp at h ⊢
      exact ih _ _ h
    | some e => simp at h

theorem runSteps_append_err (t : String) (rowId : Nat)
    (ws1 ws2 : List WorkflowStep) (db : DB) (data : Fields) (db1 : DB)
    (data1 : Fields) (e : JsError)
    (h : runSteps t rowId ws1 db data = (db1, data1, some e)) :
    runSteps t rowId (ws1 ++ ws2) db data = (db1, data1, some e) := by
  induction ws1 generalizing db data with
  | nil => simp [runSteps] at h
  | cons st rest ih =>
    rw [show runSteps t rowId (st :: rest) db data
        = (match runStep t rowId st db data with
           | (dbm, datam, none) => runSteps t rowId rest dbm datam
           | r => r) from rfl] at h
    rw [List.cons_append,
      show runSteps t rowId (st :: (rest ++ ws2)) db data
        = (match runStep t rowId st db data with
           | (dbm, datam, none) => runSteps t rowId (rest ++ ws2) dbm datam
           | r => r) from rfl]
    rcases he : runStep t rowId st db data with ⟨dbm, datam, oem⟩
    rw [he] at h
    cases oem with
    | none =>
      simp at h ⊢
      exact ih _ _ h
    | some e' =>
      simp at h ⊢
      exact h

/-! Helper lemmas about the llm retry loop, the prompt builder and the
batch loop. -/

theorem llmAux_last (mk : Nat → Except JsError String)
    (parse : String → Except JsError JsValue) (json : Bool) (a : Nat) :
    llmAux mk parse json a 0 = (llmAttemptOver mk parse json a, 1, 0) := by
  cases hm : mk a with
  | error e => simp [llmAux, llmAttemptOver, hm]
  | ok raw =>
    cases json with
    | false => simp [llmAux, llmAttemptOver, hm]
    | true =>
      cases hp : parse raw with
      | ok v => simp [llmAux, llmAttemptOver, hm, hp]
      | error e => simp [llmAux, llmAttemptOver, hm, hp]

theorem llmAux_step_ok (mk : Nat → Except JsError String)
    (parse : String → Except JsError JsValue) (json : Bool) (a r : Nat)
    (v : JsValue) (h : llmAttemptOver mk parse json a = .ok v) :
    llmAux mk parse json a (r + 1) = (.ok v, 1, 0) := by
  cases hm : mk a with
  | error e => simp [llmAttemptOver, hm] at h
  | ok raw =>
    cases json with
    | false =>
      simp [llmAttemptOver, hm] at h
      simp [llmAux, hm, h]
    | true =>
      simp [llmAttemptOver, hm] at h
      simp [llmAux, hm, h]

theorem llmAux_step_err (mk : Nat → Except JsError String)
    (parse : String → Except JsError JsValue) (json : Bool) (a r : Nat)
    (e : JsError) (h : llmAttemptOver mk parse json a = .error e) :
    llmAux mk parse json a (r + 1)
      = ((llmAux mk parse json (a + 1) r).1,
         (llmAux mk parse json (a + 1) r).2.1 + 1,
         (llmAux mk parse json (a + 1) r).2.2 + 1) := by
  cases hm : mk a with
  | error e' => simp [llmAux, hm]
  | ok raw =>
    cases json with
    | false => simp [llmAttemptOver, hm] at h
    | true =>
      simp [llmAttemptOver, hm] at h
      cases hp : parse raw with
      | ok v => rw [hp] at h; simp at h
      | error e' => simp [llmAux, hm, hp]

/-- Chaining lemma: two consecutive failing attempts make the loop run
its third and final attempt, for three provider calls and two delays. -/
theorem llmAux_two_retries (mk : Nat → Except JsError String)
    (parse : String → Except JsError JsValue) (e1 e2 : JsError)
    (h1 : llmAttemptOver mk parse true 1 = .error e1)
    (h2 : llmAttemptOver mk parse true 2 = .error e2) :
    llmAux mk parse true 1 2 = (llmAttemptOver mk parse true 3, 3, 2) := by
  rw [show llmAux mk parse true 1 2
      = ((llmAux mk parse true 2 1).1, (llmAux mk parse true 2 1).2.1 + 1,
         (llmAux mk parse true 2 1).2.2 + 1)
    from llmAux_step_err mk parse true 1 1 e1 h1]
  rw [show llmAux mk parse true 2 1
      = ((llmAux mk parse true 3 0).1, (llmAux mk parse true 3 0).2.1 + 1,
         (llmAux mk parse true 3 0).2.2 + 1)
    from llmAux_step_err mk parse true 2 0 e2 h2]
  rw [llmAux_last]

theorem promptSegs_map (g : String → String) (fs : List String) :
    promptSegs (fs.map g) fs = fs.map (fun f => tagWrap f (g f)) := by
  induction fs with
  | nil => simp [promptSegs]
  | cons f rest ih => simp [promptSegs, ih]

theorem joinNl_mem_split (xs : List String) (x : String) (h : x ∈ xs) :
    ∃ pre post, joinNl xs = pre ++ (x ++ post) := by
  induction xs with
  | nil => simp at h
  | cons y rest ih =>
    rcases List.mem_cons.mp h with heq | hmem
    · subst heq
      cases rest with
      | nil => exact ⟨"", "", by simp [joinNl]⟩
      | cons z zs =>
        refine ⟨"", "\n" ++ joinNl (z :: zs), ?_⟩
        show joinNl (x :: z :: zs) = "" ++ (x ++ ("\n" ++ joinNl (z :: zs)))
        simp [joinNl, String.append_assoc]
    · cases rest with
      | nil => simp at hmem
      | cons z zs =>
        obtain ⟨pre, post, hj⟩ := ih hmem
        refine ⟨y ++ "\n" ++ pre, post, ?_⟩
        show joinNl (y :: z :: zs) = y ++ "\n" ++ pre ++ (x ++ post)
        simp [joinNl, hj, String.append_assoc]

theorem processBatchAux_range (exec : Nat → Except JsError JsValue)
    (fuel s : Nat) :
    processBatchAux exec s fuel
      = (List.range' s fuel).map (fun id => (id, batchOutcome (exec id))) := by
  induction fuel generalizing s with
  | zero => simp [processBatchAux]
  | succ n ih => simp [processBatchAux, List.range', ih]

/-! The claims. -/

/-- Claim C1: for every workflow run, a step's field-reference inputs
resolve against the in-memory snapshot as updated by all previously
completed steps of the same run — once a step succeeds with output `v`
under field `F`, the snapshot maps `F` to `v`, a later step referencing
`F` has its function applied to exactly `v`, and this persists through any
intermediate steps that do not write `F`, regardless of the originally
fetched value of `F`. -/
theorem snapshot_reads_prior_step_output (t : String) (rowId : Nat)
    (A : ExecStep) (db : DB) (data : Fields) (v : JsValue)
    (h : computeResult data A = .ok v) :
    runExecStep t rowId A db data
      = (updateRow db t rowId [(A.outField, v)], setField data A.outField v, none)
    ∧ jsIndex (setField data A.outField v) A.outField = v
    ∧ (∀ out f, computeResult (setField data A.outField v)
        (.googleSearchStep A.outField out f) = f v)
    ∧ (∀ mid db2 data2 oe,
        runSteps t rowId mid (updateRow db t rowId [(A.outField, v)])
          (setField data A.outField v) = (db2, data2, oe) →
        (∀ s ∈ execStepsOf mid, ExecStep.outField s ≠ A.outField) →
        jsIndex data2 A.outField = v
        ∧ ∀ out f, computeResult data2 (.googleSearchStep A.outField out f) = f v) := by
  refine ⟨runExecStep_ok _ _ _ _ _ _ h, jsIndex_setField_self _ _ _, ?_, ?_⟩
  · intro out f
    simp [computeResult, jsIndex_setField_self]
  · intro mid db2 data2 oe hrun hout
    have hidx : jsIndex data2 A.outField = v := by
      rw [runSteps_preserves_jsIndex _ _ _ _ _ _ _ _ _ hrun hout,
        jsIndex_setField_self]
    exact ⟨hidx, fun out f => by simp [computeResult, hidx]⟩

/-- Witness for C1 at a concrete input: a step overwrites the field
`ts` (originally `"orig"`) with `"T1"`, and the snapshot then resolves
`ts` to the step's output, not the original value. -/
theorem snapshot_reads_prior_step_output_witness :
    computeResult [("ts", JsValue.vstr "orig")]
        (ExecStep.timestamp "ts" (fun _ => "T1"))
      = .ok (.vstr "T1")
    ∧ jsIndex (setField [("ts", JsValue.vstr "orig")] "ts" (JsValue.vstr "T1")) "ts"
      = JsValue.vstr "T1" :=
  ⟨rfl, (snapshot_reads_prior_step_output "tool_page" 1
    (ExecStep.timestamp "ts" (fun _ => "T1")) []
    [("ts", JsValue.vstr "orig")] (JsValue.vstr "T1") rfl).2.1⟩

/-- Claim C2: if the step after `pre` fails while every step of `pre`
succeeded, `executeWorkflow` runs nothing after the failing step, sets the
row's status to `failed` with the formatted error descriptor (message plus
best-effort stack location), rethrows the step's error to the caller, and
the persisted row still carries every output field written by `pre`. -/
theorem workflow_failure_checkpoint (t : String) (rowId : Nat) (db : DB)
    (row : Row) (pre : List WorkflowStep) (s : ExecStep)
    (post : List WorkflowStep) (db2 : DB) (data2 : Fields) (e : JsError)
    (hrow : getRow db t rowId = some row)
    (hpre : runSteps t rowId pre (updateRowStatus db t rowId "running" none)
      row.fields = (db2, data2, none))
    (hfail : computeResult data2 s = .error e) :
    executeWorkflow t rowId (pre ++ .exec s :: post) db
      = (updateRowStatus db2 t rowId "failed" (some (formatWorkflowError e)),
         [("running", none), ("failed", some (formatWorkflowError e))],
         .error e)
    ∧ ∀ s' ∈ execStepsOf pre,
        rowHasField
          (updateRowStatus db2 t rowId "failed" (some (formatWorkflowError e)))
          t rowId (ExecStep.outField s') = true := by
  have hstep : runSteps t rowId (.exec s :: post) db2 data2
      = (db2, data2, some e) := by
    simp [runSteps, runStep, runExecStep, hfail]
  have hall : runSteps t rowId (pre ++ .exec s :: post)
      (updateRowStatus db t rowId "running" none) row.fields
      = (db2, data2, some e) :=
    (runSteps_append_ok _ _ _ _ _ _ _ _ hpre).trans hstep
  constructor
  · simp [executeWorkflow, hrow, writeStatus, hall]
  · intro s' hs'
    rw [rowHasField_updateRowStatus]
    have hsome : (getRow (updateRowStatus db t rowId "running" none) t rowId).isSome
        = true :=
      getRow_isSome_updateRowStatus _ _ _ _ _ (by simp [hrow])
    exact runSteps_success_rowHasField _ _ _ _ _ _ _ hpre hsome s' hs'

/-- Witness for C2 at a concrete input: on a one-row table, a recipe
whose second step throws leaves the first step's output persisted,
status `failed` with the descriptor, and the error propagated; the step
after the failure is never run. -/
theorem workflow_failure_checkpoint_witness :
    executeWorkflow "tool_page" 1
      [.exec (.timestamp "a" (fun _ => "A")),
       .exec (.googleSearchStep "keyword" "g"
         (fun _ => .error ⟨"boom", some "at step"⟩)),
       .exec (.timestamp "b" (fun _ => "B"))]
      [(("tool_page", 1), ⟨[("keyword", .vstr "k")], "scheduled", none⟩)]
      = ([(("tool_page", 1),
           ⟨[("keyword", .vstr "k"), ("a", .vstr "A")], "failed",
            some "boom in at step"⟩)],
         [("running", none), ("failed", some "boom in at step")],
         .error ⟨"boom", some "at step"⟩)
    ∧ rowHasField
        [(("tool_page", 1),
          ⟨[("keyword", .vstr "k"), ("a", .vstr "A")], "failed",
           some "boom in at step"⟩)]
        "tool_page" 1 "a" = true := by
  have h := workflow_failure_checkpoint "tool_page" 1
    [(("tool_page", 1), ⟨[("keyword", .vstr "k")], "scheduled", none⟩)]
    ⟨[("keyword", .vstr "k")], "scheduled", none⟩
    [.exec (.timestamp "a" (fun _ => "A"))]
    (.googleSearchStep "keyword" "g" (fun _ => .error ⟨"boom", some "at step"⟩))
    [.exec (.timestamp "b" (fun _ => "B"))]
    [(("tool_page", 1),
      ⟨[("keyword", .vstr "k"), ("a", .vstr "A")], "running", none⟩)]
    [("keyword", .vstr "k"), ("a", .vstr "A")]
    ⟨"boom", some "at step"⟩ rfl rfl rfl
  exact ⟨h.1, by rfl⟩

/-- Claim C3: `executeWorkflow` on an absent row id fails with the
row-not-found error with no step executed and no status written; on a run
in which every step succeeds it persists status `success` and returns the
final snapshot, which carries every step's declared output field — and a
step's output field, when no later step redeclares it, still holds exactly
that step's output value. -/
theorem executeWorkflow_run_contract (t : String) (rowId : Nat)
    (wf : List WorkflowStep) (db : DB) :
    (getRow db t rowId = none →
      executeWorkflow t rowId wf db
        = (db, [], .error ⟨"No data found for the specified row", none⟩))
    ∧ (∀ row db2 data,
        getRow db t rowId = some row →
        runSteps t rowId wf (updateRowStatus db t rowId "running" none)
          row.fields = (db2, data, none) →
        executeWorkflow t rowId wf db
          = (updateRowStatus db2 t rowId "success" none,
             [("running", none), ("success", none)], .ok data)
        ∧ ∀ s ∈ execStepsOf wf, hasField data (ExecStep.outField s) = true)
    ∧ (∀ row pre A post db2 data2 v db3 data3,
        getRow db t rowId = some row →
        wf = pre ++ .exec A :: post →
        runSteps t rowId pre (updateRowStatus db t rowId "running" none)
          row.fields = (db2, data2, none) →
        computeResult data2 A = .ok v →
        runSteps t rowId post (updateRow db2 t rowId [(A.outField, v)])
          (setField data2 A.outField v) = (db3, data3, none) →
        (∀ s ∈ execStepsOf post, ExecStep.outField s ≠ A.outField) →
        executeWorkflow t rowId wf db
          = (updateRowStatus db3 t rowId "success" none,
             [("running", none), ("success", none)], .ok data3)
        ∧ jsIndex data3 A.outField = v) := by
  refine ⟨?_, ?_, ?_⟩
  · intro hnone
    simp [executeWorkflow, hnone]
  · intro row db2 data hrow hrun
    refine ⟨by simp [executeWorkflow, hrow, writeStatus, hrun], ?_⟩
    exact runSteps_success_hasField _ _ _ _ _ _ _ hrun
  · intro row pre A post db2 data2 v db3 data3 hrow hsplit hpre hA hpost hout
    subst hsplit
    have hcons : runSteps t rowId (.exec A :: post) db2 data2
        = (db3, data3, none) := by
      simp [runSteps, runStep, runExecStep, hA, hpost]
    have hall : runSteps t rowId (pre ++ .exec A :: post)
        (updateRowStatus db t rowId "running" none) row.fields
        = (db3, data3, none) :=
      (runSteps_append_ok _ _ _ _ _ _ _ _ hpre).trans hcons
    refine ⟨by simp [executeWorkflow, hrow, writeStatus, hall], ?_⟩
    rw [runSteps_preserves_jsIndex _ _ _ _ _ _ _ _ _ hpost hout,
      jsIndex_setField_self]

/-- Witness for C3 at concrete inputs: on an empty store the run fails
with row-not-found, and on a one-row store a one-step recipe ends with
status `success`, the returned snapshot carrying the step's output under
its declared field. -/
theorem executeWorkflow_run_contract_witness :
    executeWorkflow "tool_page" 7 [.exec (.timestamp "ts" (fun _ => "T"))] []
      = ([], [], .error ⟨"No data found for the specified row", none⟩)
    ∧ executeWorkflow "tool_page" 7 [.exec (.timestamp "ts" (fun _ => "T"))]
        [(("tool_page", 7), ⟨[("keyword", .vstr "invoice template")], "scheduled", none⟩)]
      = ([(("tool_page", 7),
           ⟨[("keyword", .vstr "invoice template"), ("ts", .vstr "T")],
            "success", none⟩)],
         [("running", none), ("success", none)],
         .ok [("keyword", .vstr "invoice template"), ("ts", .vstr "T")])
    ∧ hasField [("keyword", .vstr "invoice template"), ("ts", .vstr "T")] "ts" = true := by
  refine ⟨(executeWorkflow_run_contract "tool_page" 7
    [.exec (.timestamp "ts" (fun _ => "T"))] []).1 rfl, ?_, ?_⟩
  · exact ((executeWorkflow_run_contract "tool_page" 7
      [.exec (.timestamp "ts" (fun _ => "T"))]
      [(("tool_page", 7),
        ⟨[("keyword", .vstr "invoice template")], "scheduled", none⟩)]).2.1
      ⟨[("keyword", .vstr "invoice template")], "scheduled", none⟩
      [(("tool_page", 7),
        ⟨[("keyword", .vstr "invoice template"), ("ts", .vstr "T")], "running", none⟩)]
      [("keyword", .vstr "invoice template"), ("ts", .vstr "T")] rfl rfl).1
  · rfl

/-- Claim C4: on an existing row, every execution attempt writes exactly
one terminal status: the log is `running` followed by exactly one of
`success` (when all steps complete) or `failed` (otherwise), and the
persisted row ends in that terminal status. -/
theorem executeWorkflow_terminal_status_once (t : String) (rowId : Nat)
    (wf : List WorkflowStep) (db : DB) (row : Row)
    (hrow : getRow db t rowId = some row) :
    ((executeWorkflow t rowId wf db).2.1.countP
        (fun ent => ent.1 == "success" || ent.1 == "failed")) = 1
    ∧ (executeWorkflow t rowId wf db).2.1.head? = some ("running", none)
    ∧ (∀ db2 data,
        runSteps t rowId wf (updateRowStatus db t rowId "running" none)
          row.fields = (db2, data, none) →
        (executeWorkflow t rowId wf db).2.1
          = [("running", none), ("success", none)]
        ∧ (getRow (executeWorkflow t rowId wf db).1 t rowId).map Row.status
          = some "success")
    ∧ (∀ db2 data e,
        runSteps t rowId wf (updateRowStatus db t rowId "running" none)
          row.fields = (db2, data, some e) →
        (executeWorkflow t rowId wf db).2.1
          = [("running", none), ("failed", some (formatWorkflowError e))]
        ∧ (getRow (executeWorkflow t rowId wf db).1 t rowId).map Row.status
          = some "failed") := by
  have hsome1 : (getRow (updateRowStatus db t rowId "running" none) t rowId).isSome
      = true := getRow_isSome_updateRowStatus _ _ _ _ _ (by simp [hrow])
  rcases hr : runSteps t rowId wf (updateRowStatus db t rowId "running" none)
    row.fields with ⟨dbr, datar, oer⟩
  have hsome2 : (getRow dbr t rowId).isSome = true :=
    runSteps_preserves_isSome _ _ _ _ _ _ _ _ hr hsome1
  cases oer with
  | none =>
    have hw : executeWorkflow t rowId wf db
        = (updateRowStatus dbr t rowId "success" none,
           [("running", none), ("success", none)], .ok datar) := by
      simp [executeWorkflow, hrow, writeStatus, hr]
    refine ⟨by rw [hw]; rfl, by rw [hw]; rfl, ?_, ?_⟩
    · intro db2 data hrun
      refine ⟨by rw [hw], ?_⟩
      rw [hw]
      show (getRow (updateRowStatus dbr t rowId "success" none) t rowId).map Row.status
        = some "success"
      rw [getRow_updateRowStatus]
      cases hg : getRow dbr t rowId with
      | none => rw [hg] at hsome2; simp at hsome2
      | some r => simp
    · intro db2 data e hrun
      simp at hrun
  | some e0 =>
    have hw : executeWorkflow t rowId wf db
        = (updateRowStatus dbr t rowId "failed" (some (formatWorkflowError e0)),
           [("running", none), ("failed", some (formatWorkflowError e0))],
           .error e0) := by
      simp [executeWorkflow, hrow, writeStatus, hr]
    refine ⟨by rw [hw]; rfl, by rw [hw]; rfl, ?_, ?_⟩
    · intro db2 data hrun
      simp at hrun
    · intro db2 data e hrun
      simp at hrun
      obtain ⟨-, -, he⟩ := hrun
      subst he
      refine ⟨by rw [hw], ?_⟩
      rw [hw]
      show (getRow (updateRowStatus dbr t rowId "failed"
        (some (formatWorkflowError e0))) t rowId).map Row.status = some "failed"
      rw [getRow_updateRowStatus]
      cases hg : getRow dbr t rowId with
      | none => rw [hg] at hsome2; simp at hsome2
      | some r => simp

/-- Witness for C4 at a concrete input: a one-row store and an empty
recipe give a log with exactly one terminal status write. -/
theorem executeWorkflow_terminal_status_once_witness :
    getRow [(("tool_page", 1), ⟨[("keyword", .vstr "k")], "scheduled", none⟩)]
        "tool_page" 1
      = some ⟨[("keyword", .vstr "k")], "scheduled", none⟩
    ∧ ((executeWorkflow "tool_page" 1 []
        [(("tool_page", 1), ⟨[("keyword", .vstr "k")], "scheduled", none⟩)]).2.1.countP
        (fun ent => ent.1 == "success" || ent.1 == "failed")) = 1 :=
  ⟨rfl, (executeWorkflow_terminal_status_once "tool_page" 1 []
    [(("tool_page", 1), ⟨[("keyword", .vstr "k")], "scheduled", none⟩)]
    ⟨[("keyword", .vstr "k")], "scheduled", none⟩ rfl).1⟩

/-- Claim C5: the workflow-utils `llm` with the JSON flag set makes up to
3 attempts with a delay between consecutive attempts, retrying both on
provider-call failure and on JSON parse failure (both are covered by a
failing `llmAttemptOver`), and after exhausting all attempts fails with
the last attempt's underlying error; with the JSON flag unset it makes
exactly one provider call with no retry and no delay. -/
theorem llm_retry_policy (provider : Nat → LlmRequest → Except JsError String)
    (parse : String → Except JsError JsValue) (sys : String)
    (msgs : List String) (model : Option String) (fields : List String) :
    ((∀ a, exceptFails (llmAttemptOver
        (fun a' => provider a' (llmRequestOf sys msgs model true fields))
        parse true a) = true) →
      llm provider parse sys msgs model true fields
        = (llmAttemptOver
            (fun a' => provider a' (llmRequestOf sys msgs model true fields))
            parse true 3, 3, 2))
    ∧ (∀ v, llmAttemptOver
          (fun a' => provider a' (llmRequestOf sys msgs model true fields))
          parse true 1 = .ok v →
        llm provider parse sys msgs model true fields = (.ok v, 1, 0))
    ∧ (∀ v, exceptFails (llmAttemptOver
          (fun a' => provider a' (llmRequestOf sys msgs model true fields))
          parse true 1) = true →
        llmAttemptOver
          (fun a' => provider a' (llmRequestOf sys msgs model true fields))
          parse true 2 = .ok v →
        llm provider parse sys msgs model true fields = (.ok v, 2, 1))
    ∧ llm provider parse sys msgs model false fields
        = (llmAttemptOver
            (fun a' => provider a' (llmRequestOf sys msgs model false fields))
            parse false 1, 1, 0) := by
  refine ⟨?_, ?_, ?_, ?_⟩
  · intro hall
    cases hc1 : llmAttemptOver
        (fun a' => provider a' (llmRequestOf sys msgs model true fields))
        parse true 1 with
    | ok v =>
      have := hall 1
      rw [hc1] at this
      simp [exceptFails] at this
    | error e1 =>
      cases hc2 : llmAttemptOver
          (fun a' => provider a' (llmRequestOf sys msgs model true fields))
          parse true 2 with
      | ok v =>
        have := hall 2
        rw [hc2] at this
        simp [exceptFails] at this
      | error e2 =>
        exact llmAux_two_retries _ _ _ _ hc1 hc2
  · intro v hv
    exact llmAux_step_ok _ _ true 1 1 v hv
  · intro v h1 h2
    cases hc1 : llmAttemptOver
        (fun a' => provider a' (llmRequestOf sys msgs model true fields))
        parse true 1 with
    | ok w =>
      rw [hc1] at h1
      simp [exceptFails] at h1
    | error e1 =>
      show llmAux (fun a' => provider a' (llmRequestOf sys msgs model true fields))
        parse true 1 2 = (.ok v, 2, 1)
      rw [show llmAux (fun a' => provider a' (llmRequestOf sys msgs model true fields))
            parse true 1 2
          = ((llmAux (fun a' => provider a' (llmRequestOf sys msgs model true fields))
                parse true 2 1).1,
             (llmAux (fun a' => provider a' (llmRequestOf sys msgs model true fields))
                parse true 2 1).2.1 + 1,
             (llmAux (fun a' => provider a' (llmRequestOf sys msgs model true fields))
                parse true 2 1).2.2 + 1)
        from llmAux_step_err _ _ true 1 1 e1 hc1]
      rw [show llmAux (fun a' => provider a' (llmRequestOf sys msgs model true fields))
            parse true 2 1 = (.ok v, 1, 0)
        from llmAux_step_ok _ _ true 2 0 v h2]
  · exact llmAux_last _ _ false 1

/-- Witness for C5 at a concrete input: a provider that always returns
non-JSON text with a failing parse makes exactly 3 calls with 2 delays in
JSON mode and fails with the parse error. -/
theorem llm_retry_policy_witness :
    llm (fun _ _ => .ok "not json")
      (fun _ => .error ⟨"Unexpected token", none⟩)
      "system prompt" ["msg"] none true ["keyword"]
      = (.error ⟨"Unexpected token", none⟩, 3, 2) :=
  (llm_retry_policy (fun _ _ => .ok "not json")
    (fun _ => .error ⟨"Unexpected token", none⟩)
    "system prompt" ["msg"] none ["keyword"]).1 (fun _ => rfl)

/-- Counterexample for claim C6: the workflow-utils `googleSearch`
(src/unnamed/part_006 lines 349-371) does not catch overall search
failures — with missing credentials it throws past the step boundary
instead of returning a result object with an empty list and an error
field. -/
theorem googleSearch_p6_throws_missing_credentials :
    googleSearch_p6 "" "" (fun _ _ => .ok ⟨none, none⟩) (fun _ => none)
      "invoice template" 5
      = .error ⟨"Missing Google Search credentials", false⟩ := rfl

/-- Claim C6, amended: the part_000 `googleSearch` converts every overall
search failure — missing credentials, a thrown provider call (including
its timeout), and a provider error body — into a result object with an
empty `search_results` list and a set `error` message instead of
throwing; the workflow-utils replica of part_006 instead propagates such
failures as exceptions. -/
theorem googleSearch_p0_degrades (apiKey cx : String)
    (api : String → Nat → Except AxiosErrorLike GoogleResponseData)
    (crawlRace : String → Except Unit (Option String)) (query : String)
    (limit : Nat) :
    (apiKey = "" →
      googleSearch_p0 apiKey cx api crawlRace query limit
        = ⟨[], some "GOOGLE_SEARCH_KEY is required"⟩)
    ∧ (apiKey ≠ "" → cx = "" →
      googleSearch_p0 apiKey cx api crawlRace query limit
        = ⟨[], some "GOOGLE_SEARCH_ID is required"⟩)
    ∧ (∀ e, apiKey ≠ "" → cx ≠ "" → api query (min limit 10) = .error e →
      googleSearch_p0 apiKey cx api crawlRace query limit
        = ⟨[], some (if e.econnaborted then "Search timeout" else e.message)⟩)
    ∧ (∀ resp m, apiKey ≠ "" → cx ≠ "" → api query (min limit 10) = .ok resp →
      resp.error = some m →
      googleSearch_p0 apiKey cx api crawlRace query limit = ⟨[], some m⟩) := by
  refine ⟨?_, ?_, ?_, ?_⟩
  · intro h1
    simp [googleSearch_p0, h1]
  · intro h1 h2
    simp [googleSearch_p0, h1, h2]
  · intro e h1 h2 happi
    cases he : e.econnaborted <;> simp [googleSearch_p0, h1, h2, happi, he]
  · intro resp m h1 h2 happi herr
    simp [googleSearch_p0, h1, h2, happi, herr]

/-- Witness for the amended C6 at a concrete input: with a missing API
key the call returns the degraded result instead of throwing. -/
theorem googleSearch_p0_degrades_witness :
    googleSearch_p0 "" "cx" (fun _ _ => .ok ⟨none, none⟩) (fun _ => .ok none)
      "invoice template" 5
      = ⟨[], some "GOOGLE_SEARCH_KEY is required"⟩ :=
  (googleSearch_p0_degrades "" "cx" (fun _ _ => .ok ⟨none, none⟩)
    (fun _ => .ok none) "invoice template" 5).1 rfl

/-- Counterexample for claim C7: in the part_000 `googleSearch` a result
whose page crawl failed (`crawlUrl` returned null) is filtered out of the
returned `search_results`, not kept with its title and link. -/
theorem googleSearch_p0_filters_out_crawl_failures :
    googleSearch_p0 "key" "cx"
      (fun _ _ => .ok ⟨some [⟨"Example Domain", "https://example.com", "snippet"⟩], none⟩)
      (fun _ => .ok none) "invoice template" 5
      = ⟨[], none⟩ := rfl

/-- Claim C7, amended: per-result crawl failures never fail the overall
search; in the workflow-utils `googleSearch` of part_006 every result is
kept with its title and link, a crawl-failed result carrying a null
`content` (no content text), while the part_000 implementation filters
crawl-failed results out of `search_results`. -/
theorem googleSearch_p6_keeps_crawl_failures (apiKey cx : String)
    (api : String → Nat → Except AxiosErrorLike GoogleResponseData)
    (crawlUrl : String → Option String) (query : String) (limit : Nat)
    (resp : GoogleResponseData)
    (hk : apiKey ≠ "") (hc : cx ≠ "")
    (hapi : api query (min limit 10) = .ok resp) (herr : resp.error = none) :
    googleSearch_p6 apiKey cx api crawlUrl query limit
      = .ok ⟨((resp.items.getD []).take limit).map (fun it =>
          ({ title := it.title, link := it.link,
             content := some (crawlUrl it.link) } : SearchItem)), none⟩
    ∧ ∀ it ∈ (resp.items.getD []).take limit, crawlUrl it.link = none →
        ({ title := it.title, link := it.link, content := some none } : SearchItem)
          ∈ ((resp.items.getD []).take limit).map (fun it' =>
            ({ title := it'.title, link := it'.link,
               content := some (crawlUrl it'.link) } : SearchItem)) := by
  constructor
  · simp [googleSearch_p6, hk, hc, hapi, herr]
  · intro it hit hcr
    have hmem := List.mem_map_of_mem
      (fun it' => ({ title := it'.title, link := it'.link,
                     content := some (crawlUrl it'.link) } : SearchItem)) hit
    simpa [hcr] using hmem

/-- Witness for the amended C7 at a concrete input: one search result
whose crawl returns null is kept with its title and link and a null
content, and the call succeeds. -/
theorem googleSearch_p6_keeps_crawl_failures_witness :
    googleSearch_p6 "key" "cx"
      (fun _ _ => .ok ⟨some [⟨"Example Domain", "https://example.com", "snippet"⟩], none⟩)
      (fun _ => none) "invoice template" 5
      = .ok ⟨[⟨"Example Domain", "https://example.com", some none⟩], none⟩ :=
  (googleSearch_p6_keeps_crawl_failures "key" "cx"
    (fun _ _ => .ok ⟨some [⟨"Example Domain", "https://example.com", "snippet"⟩], none⟩)
    (fun _ => none) "invoice template" 5
    ⟨some [⟨"Example Domain", "https://example.com", "snippet"⟩], none⟩
    (by decide) (by decide) rfl rfl).1

/-- Claim C8: the batch runner visits every id of the inclusive range in
order, exactly once, recording for each id its outcome (the error message
of a caught per-row failure, or success), so a failing row never stops
the batch and the batch call itself returns a log instead of throwing. -/
theorem processBatch_isolation (exec : Nat → Except JsError JsValue)
    (startId endId : Nat) :
    processBatch exec startId endId
      = (List.range' startId (endId + 1 - startId)).map
          (fun id => (id, batchOutcome (exec id)))
    ∧ ∀ id, startId ≤ id → id ≤ endId →
        (id, batchOutcome (exec id)) ∈ processBatch exec startId endId := by
  refine ⟨processBatchAux_range exec _ startId, ?_⟩
  intro id h1 h2
  show (id, batchOutcome (exec id)) ∈ processBatchAux exec startId (endId + 1 - startId)
  rw [processBatchAux_range]
  refine List.mem_map_of_mem _ ?_
  rw [List.mem_range'_1]
  exact ⟨h1, by omega⟩

/-- Witness for C8 at a concrete input: over ids 1..3 with id 2 stubbed
to fail, all three ids are processed, id 2's failure is logged with its
message, and ids 1 and 3 still succeed. -/
theorem processBatch_isolation_witness :
    processBatch
      (fun id => if id = 2 then .error ⟨"LLM rejected", none⟩ else .ok (.vstr "done"))
      1 3
      = [(1, none), (2, some "LLM rejected"), (3, none)]
    ∧ (2, some "LLM rejected") ∈ processBatch
        (fun id => if id = 2 then .error ⟨"LLM rejected", none⟩ else .ok (.vstr "done"))
        1 3 :=
  ⟨(processBatch_isolation
      (fun id => if id = 2 then .error ⟨"LLM rejected", none⟩ else .ok (.vstr "done"))
      1 3).1,
   (processBatch_isolation
      (fun id => if id = 2 then .error ⟨"LLM rejected", none⟩ else .ok (.vstr "done"))
      1 3).2 2 (by decide) (by decide)⟩

/-- Claim C9: for every LLM step the engine serializes each referenced
value (objects to pretty-printed JSON, everything else through String
conversion), the llm function wraps each serialized value in a tag named
after its source field, and the tagged segments are joined in the order
the field references are listed, forming the user prompt. -/
theorem llm_prompt_serialization (data : Fields) (fs : List String)
    (sys : String) (model : Option String) (json : Option Bool) (out : String)
    (func : String → List String → Option String → Option Bool → List String →
      Except JsError JsValue) :
    computeResult data (.llmStep sys fs model json out func)
      = func sys (fs.map (serializeForLlm data)) model json fs
    ∧ promptSegs (fs.map (serializeForLlm data)) fs
      = fs.map (fun f => tagWrap f (serializeForLlm data f))
    ∧ makePrompt (fs.map (serializeForLlm data)) fs
      = joinNl (fs.map (fun f => tagWrap f (serializeForLlm data f))) := by
  refine ⟨rfl, promptSegs_map _ _, ?_⟩
  rw [makePrompt, promptSegs_map]

/-- Claim C10: a field reference absent from the snapshot resolves to
`undefined` without an error, serializes to the literal string
"undefined", and the constructed prompt contains the segment
`<fieldName>undefined</fieldName>`. -/
theorem missing_field_resolves_undefined (data : Fields) (f : String)
    (fs : List String) (h : hasField data f = false) (hmem : f ∈ fs) :
    serializeForLlm data f = "undefined"
    ∧ ∃ pre post, makePrompt (fs.map (serializeForLlm data)) fs
        = pre ++ (tagWrap f "undefined" ++ post) := by
  have hx := hasField_false_jsIndex data f h
  have hser : serializeForLlm data f = "undefined" := by
    simp [serializeForLlm, hx, jsTypeofObject, jsToString]
  refine ⟨hser, ?_⟩
  rw [makePrompt, promptSegs_map]
  have hmem2 : tagWrap f (serializeForLlm data f)
      ∈ fs.map (fun f' => tagWrap f' (serializeForLlm data f')) :=
    List.mem_map_of_mem _ hmem
  rw [hser] at hmem2
  exact joinNl_mem_split _ _ hmem2

/-- Witness for C10 at a concrete input: a snapshot without the field
`context` serializes that reference to "undefined". -/
theorem missing_field_resolves_undefined_witness :
    hasField [("keyword", JsValue.vstr "k")] "context" = false
    ∧ serializeForLlm [("keyword", JsValue.vstr "k")] "context" = "undefined" :=
  ⟨rfl, (missing_field_resolves_undefined [("keyword", .vstr "k")] "context"
    ["keyword", "context"] rfl (by decide)).1⟩

end DevPlaybook
